import Mathlib

/-!
Verification development for the schema composition and validation engine in
`src/mixed.ts` (the `MixedSchema` class and its `RefSet` helper).

The TypeScript code is shallowly embedded: JS runtime values are modelled by
the inductive `JValue` (the primitive universe exercised by the engine:
undefined, null, booleans, integers, strings); JS functions that the engine
stores but never inspects (user test functions, condition branches) are
modelled by numeric identities resolved through explicit environments, which
also models the `===` function-identity comparisons the engine performs.
Methods that `throw` programmer errors are modelled with `Except String`.

Utilities imported by `mixed.ts` but not part of this file
(`util/prependDeep`, `util/runTests`, `Condition`, `Reference`,
`util/createValidation`) are modelled from the specification where their
behaviour matters; each such definition carries a doc comment starting with
`Modelled from the spec:`.
-/

deriving instance DecidableEq for Except

namespace Yup

/-- The universe of primitive JS runtime values handled by the engine. -/
inductive JValue where
  | undefined
  | null
  | bool (b : Bool)
  | num (n : Int)
  | str (s : String)
deriving DecidableEq, Repr

/-- Modelled from the spec: `Reference` (module `./Reference`, not under
`src/`) is "a deferred pointer to a sibling or ambient context value"; the
engine only uses its `key` and `Ref.isRef`. -/
structure Reference where
  key : String
deriving DecidableEq, Repr

/-- A value handed to `oneOf` / `notOneOf` / `RefSet.add`: either a plain
literal value or a `Reference` object (`Ref.isRef` distinguishes the two). -/
inductive RVal where
  | lit (v : JValue)
  | ref (r : Reference)
deriving DecidableEq, Repr

/-- Generic assoc-list upsert used for JS `Map.set` / object key assignment:
overwrite the first matching key in place, otherwise append. -/
def setAssoc {α : Type} : List (String × α) → String → α → List (String × α)
  | [], k, a => [(k, a)]
  | p :: tl, k, a => if p.1 == k then (k, a) :: tl else p :: setAssoc tl k a

/-- `RefSet` (src/mixed.ts lines 34-86): a dual-mode membership set holding
literal values (a JS `Set`, modelled as a duplicate-free insertion-ordered
list) and references (a JS `Map` keyed by `ref.key`). -/
structure RefSet where
  list : List JValue
  refs : List (String × Reference)
deriving DecidableEq, Repr

def RefSet.size (s : RefSet) : Nat := s.list.length + s.refs.length

/-- `RefSet.add`: references are routed to the `refs` map, literals to the
`list` set (`Ref.isRef(value) ? this.refs.set(value.key, value) : this.list.add(value)`). -/
def RefSet.add (s : RefSet) : RVal → RefSet
  | .ref r => { s with refs := setAssoc s.refs r.key r }
  | .lit v => { s with list := if s.list.contains v then s.list else s.list ++ [v] }

/-- `RefSet.delete`: remove a reference by key, or a literal from the set. -/
def RefSet.delete (s : RefSet) : RVal → RefSet
  | .ref r => { s with refs := s.refs.filter (fun p => !(p.1 == r.key)) }
  | .lit v => { s with list := s.list.filter (fun x => !(x == v)) }

/-- `RefSet.has(value, resolve)`: a literal hit, or some stored reference
that resolves (through the caller-supplied `resolve`) to the value. -/
def RefSet.has (s : RefSet) (v : JValue) (resolveFn : Reference → JValue) : Bool :=
  s.list.contains v || s.refs.any (fun p => resolveFn p.2 == v)

/-- `RefSet.clone`: rebuild with the same contents (`new Set(this.list)`,
`new Map(this.refs)`); at the value level this is the identical contents. -/
def RefSet.clone (s : RefSet) : RefSet := ⟨s.list, s.refs⟩

/-- `RefSet.merge(newItems, removeItems)`: clone, add every entry of
`newItems` (literals then refs), then delete every entry of `removeItems`. -/
def RefSet.merge (s newItems removeItems : RefSet) : RefSet :=
  let next := s.clone
  let next := newItems.list.foldl (fun acc v => acc.add (.lit v)) next
  let next := newItems.refs.foldl (fun acc p => acc.add (.ref p.2)) next
  let next := removeItems.list.foldl (fun acc v => acc.delete (.lit v)) next
  removeItems.refs.foldl (fun acc p => acc.delete (.ref p.2)) next

/-- The `UNSET` default sentinel (src/mixed.ts line 88). -/
def UNSET : JValue := .str "@@UNSET_DEFAULT"

/-- `SchemaSpec` (src/mixed.ts lines 96-106).  The constructor defines every
field, so the boolean fields are always-present booleans; `default`, `label`
and `meta` may be `undefined` (`JValue.undefined` / `none`). -/
structure SchemaSpec where
  nullable : Bool
  default : JValue
  hasDefault : Bool
  abortEarly : Bool
  strip : Bool
  strict : Bool
  recursive : Bool
  label : Option String
  meta : JValue
deriving DecidableEq, Repr

/-- A normalized test config (`TestConfig` from `util/createValidation`):
`name`, `exclusive`, and the underlying test function, modelled by its
function identity `test : Nat` (the engine itself only stores the function
and compares it with `===`).  The `message` field is not modelled: no code
path in `mixed.ts` branches on it. -/
structure TestConfig where
  name : Option String
  exclusive : Bool
  test : Nat
deriving DecidableEq, Repr

/-- Modelled from the spec: a `Condition` (module `./Condition`, not under
`src/`) carries dependency references and a branch function
`(resolved dependency values, schema, options) -> schema`; the branch
function is modelled by the identity `branchId`, resolved through a
`CondEnv` at resolution time. -/
structure Condition where
  deps : List Reference
  branchId : Nat
deriving DecidableEq, Repr

/-- Options objects threaded into `resolve` (`{ value, ...options }`). -/
structure ResolveOptions where
  value : JValue := JValue.undefined
  context : String → JValue := fun _ => JValue.undefined

/-- Options for `cast` (src/mixed.ts line 306): only `assert` is branched on
(`options.assert !== false`); `context` is forwarded to `resolve`. -/
structure CastOptions where
  assert : Option Bool := none
  context : String → JValue := fun _ => JValue.undefined

/-- The schema node (src/mixed.ts lines 117-187).  Field names follow the
source.  `_typeCheck` is the protected method that concrete subclasses
override (the base `mixed` implementation returns `true` for every value);
it is carried as a field to model the dynamic dispatch.  The three
synthesized error tests are carried as presence flags: their stored closures
(lines 638-650, 662-677, 689-702) read all of their data from the schema
they are run against, so presence is the only per-schema state.
The private `_mutate` batch-mutation flag only affects object identity, not
the value computed; identity semantics are modelled separately by the
`SchemaNode` layer below. -/
structure MixedSchema where
  type : String
  spec : SchemaSpec
  tests : List TestConfig
  transforms : List (JValue → JValue → JValue)
  _exclusive : List (String × Bool)
  _whitelist : RefSet
  _blacklist : RefSet
  conditions : List Condition
  deps : List String
  _typeError : Bool
  _whitelistError : Bool
  _blacklistError : Bool
  _typeCheck : JValue → Bool
  _label : Option String
  _meta : JValue

/-- Environment giving meaning to condition branch identities:
`Condition.resolve(schema, options)` returns `branch(values, schema, options)`. -/
def CondEnv : Type := Nat → MixedSchema → ResolveOptions → MixedSchema

/-- `create()` (src/mixed.ts lines 113-115, constructor lines 161-187): type
`mixed`, empty queues, the default type-error test installed, spec defaults. -/
def create : MixedSchema where
  type := "mixed"
  spec :=
    { hasDefault := false
      strip := false
      strict := false
      abortEarly := true
      recursive := true
      label := none
      meta := JValue.undefined
      nullable := false
      default := JValue.undefined }
  tests := []
  transforms := []
  _exclusive := []
  _whitelist := ⟨[], []⟩
  _blacklist := ⟨[], []⟩
  conditions := []
  deps := []
  _typeError := true
  _whitelistError := false
  _blacklistError := false
  _typeCheck := fun _ => true
  _label := none
  _meta := JValue.undefined

/-- `clone()` (src/mixed.ts lines 200-208) at the value level: a structural
deep copy computes the same value (the identity and aliasing consequences of
`cloneDeepWith` and of the `_mutate` fast path are modelled by the
`SchemaNode` layer below). -/
def MixedSchema.clone (s : MixedSchema) : MixedSchema := s

/-- `isType(v)` (src/mixed.ts lines 275-278). -/
def MixedSchema.isType (s : MixedSchema) (v : JValue) : Bool :=
  if s.spec.nullable && v == .null then true else s._typeCheck v

/-- JS truthiness of the optional `name` string: `undefined` and the empty
string are falsy. -/
def truthyName : Option String → Bool
  | none => false
  | some s => !(s == "")

/-- Lookup in the `_exclusive` table: `next._exclusive[opts.name]`, where a
missing key reads as `undefined` (here `none`). -/
def lookupExcl (tbl : List (String × Bool)) : Option String → Option Bool
  | some k => (tbl.find? (fun p => p.1 == k)).map (·.2)
  | none => none

/-- The predicate kept by the `tests` filter in `test()` (src/mixed.ts lines
598-604): drop an existing test when it shares the (possibly undefined) name
and either the registration is exclusive or the underlying test function is
identical. -/
def keepTest (isExclusive : Bool) (opts : TestConfig) (fn : TestConfig) : Bool :=
  if fn.name == opts.name then
    if isExclusive then false
    else if fn.test == opts.test then false
    else true
  else true

/-- The registration core of `test()` as executed on the clone (src/mixed.ts
lines 586-606): compute `isExclusive` from the flag and the exclusivity
table, record `_exclusive[name] = !!opts.exclusive` for truthy names, filter
the queue, append the new test. -/
def registerTest (tests : List TestConfig) (tbl : List (String × Bool))
    (opts : TestConfig) : List TestConfig × List (String × Bool) :=
  let isExclusive :=
    opts.exclusive || (truthyName opts.name && (lookupExcl tbl opts.name == some true))
  let tbl1 :=
    match opts.name with
    | some k => if truthyName opts.name then setAssoc tbl k opts.exclusive else tbl
    | none => tbl
  (tests.filter (keepTest isExclusive opts) ++ [opts], tbl1)

/-- The message thrown for an exclusive test without a usable name
(src/mixed.ts lines 590-594). -/
def exclusiveNameError : String :=
  "Exclusive tests must provide a unique name identifying the test"

/-- `test(options)` (src/mixed.ts lines 559-609) on an already-normalized
config.  The `typeof opts.test !== 'function'` throw is unreachable in the
model because `TestConfig.test` always carries a function identity, mirroring
the TS type of `TestConfig`; the message defaulting is not modelled. -/
def MixedSchema.test (s : MixedSchema) (opts : TestConfig) : Except String MixedSchema :=
  if opts.exclusive && !truthyName opts.name then
    .error exclusiveNameError
  else
    let next := s.clone
    let r := registerTest next.tests next._exclusive opts
    .ok { next with tests := r.1, _exclusive := r.2 }

/-- Helper extracting the schema from a successful `test` call (used to name
concrete schemas in closed statements). -/
def testOk (s : MixedSchema) (opts : TestConfig) : MixedSchema :=
  match s.test opts with
  | .ok t => t
  | .error _ => s

/-- `default(def)` with an argument (src/mixed.ts lines 493-496): clone, set
`hasDefault` and the stored default. -/
def MixedSchema.default (s : MixedSchema) (def_ : JValue) : MixedSchema :=
  let next := s.clone
  { next with spec := { next.spec with hasDefault := true, default := def_ } }

/-- `cloneDeepWith(defaultValue)` on a primitive value universe: structurally
equal copy, hence the value itself. -/
def cloneDeepValue (v : JValue) : JValue := v

/-- `default()` with no argument, the getter (src/mixed.ts lines 480-491):
`undefined` and `null` defaults are returned as-is (`defaultValue == null`),
otherwise a deep copy is returned.  Function-typed (factory) defaults lie
outside the primitive value universe and are not modelled. -/
def MixedSchema.defaultValue (s : MixedSchema) : JValue :=
  let defaultValue := s.spec.default
  if defaultValue == JValue.undefined || defaultValue == .null then defaultValue
  else cloneDeepValue defaultValue

/-- `nullable(isNullable = true)` (src/mixed.ts lines 534-538). -/
def MixedSchema.nullable (s : MixedSchema) (isNullable : Bool := true) : MixedSchema :=
  let next := s.clone
  { next with spec := { next.spec with nullable := isNullable } }

/-- The `enums.forEach` body of `oneOf` (src/mixed.ts lines 657-660):
`next._whitelist.add(val); next._blacklist.delete(val)`. -/
def oneOfStep (acc : MixedSchema) (val : RVal) : MixedSchema :=
  { acc with
    _whitelist := acc._whitelist.add val
    _blacklist := acc._blacklist.delete val }

/-- The `enums.forEach` body of `notOneOf` (src/mixed.ts lines 684-687):
`next._blacklist.add(val); next._whitelist.delete(val)`. -/
def notOneOfStep (acc : MixedSchema) (val : RVal) : MixedSchema :=
  { acc with
    _blacklist := acc._blacklist.add val
    _whitelist := acc._whitelist.delete val }

/-- `oneOf(enums, message)` (src/mixed.ts lines 654-680): for each value, add
to the whitelist and delete from the blacklist, then install the synthesized
whitelist-error test. -/
def MixedSchema.oneOf (s : MixedSchema) (enums : List RVal) : MixedSchema :=
  { enums.foldl oneOfStep s.clone with _whitelistError := true }

/-- `notOneOf(enums, message)` (src/mixed.ts lines 682-705): for each value,
add to the blacklist and delete from the whitelist, then install the
synthesized blacklist-error test. -/
def MixedSchema.notOneOf (s : MixedSchema) (enums : List RVal) : MixedSchema :=
  { enums.foldl notOneOfStep s.clone with _blacklistError := true }

/-- Modelled from the spec: `Condition.resolve(schema, options)` (module
`./Condition`, not under `src/`) resolves the declared dependencies against
`options` and returns the branch result; the branch is looked up in the
environment by its identity. -/
def Condition.resolve (env : CondEnv) (c : Condition) (s : MixedSchema)
    (options : ResolveOptions) : MixedSchema :=
  env c.branchId s options

/-- `resolve(options)` (src/mixed.ts lines 280-297).  The source recursion
re-resolves the fold result, which need not terminate for adversarial branch
functions, so the model takes explicit fuel; `none` means the fuel ran out. -/
def MixedSchema.resolve (env : CondEnv) :
    Nat → MixedSchema → ResolveOptions → Option MixedSchema
  | 0, _, _ => none
  | fuel + 1, s, options =>
    if s.conditions.isEmpty then some s
    else
      let conditions := s.conditions
      let cleared := { s.clone with conditions := ([] : List Condition) }
      let folded :=
        conditions.foldl (fun schema condition => condition.resolve env schema options) cleared
      MixedSchema.resolve env fuel folded options

/-- `_cast(rawValue, _options)` (src/mixed.ts lines 338-352): `undefined`
skips the transform chain; a still-`undefined` result is replaced by the
configured default unless the default is the `UNSET` sentinel. -/
def MixedSchema._cast (s : MixedSchema) (rawValue : JValue) (_options : CastOptions) : JValue :=
  let value :=
    if rawValue == JValue.undefined then rawValue
    else s.transforms.foldl (fun value fn => fn value rawValue) rawValue
  if value == JValue.undefined && !(s.spec.default == UNSET) then s.defaultValue else value

/-- The type error thrown by `cast` (src/mixed.ts lines 323-332); the
formatted value text is not modelled. -/
def castTypeError : String :=
  "TypeError: the value could not be cast to a value that satisfies the schema type"

/-- `cast(value, options)` (src/mixed.ts lines 306-336): resolve against
`{ value, ...options }`, run `_cast`, and unless the raw value is
`undefined` or `options.assert === false`, require `isType` to accept the
result.  `none` propagates resolution fuel exhaustion. -/
def MixedSchema.cast (env : CondEnv) (fuel : Nat) (s : MixedSchema) (value : JValue)
    (options : CastOptions) : Option (Except String JValue) :=
  match MixedSchema.resolve env fuel s { value := value, context := options.context } with
  | none => none
  | some resolvedSchema =>
    let result := resolvedSchema._cast value options
    if value ≠ JValue.undefined ∧ options.assert ≠ some false ∧ resolvedSchema.isType result ≠ true
    then some (Except.error castTypeError)
    else some (Except.ok result)

/-- Modelled from the spec: `merge` is `util/prependDeep` (not under `src/`),
the deep merge of the receiver (`source`) under the other schema's clone
(`target`): "the merge gives other's explicitly-set fields priority,
receiver fields are the base".  On `SchemaSpec` every field is defined by
the constructor except that `default`, `label` and `meta` may be
`undefined`, so field-wise: a defined target field wins, an `undefined`
target field is filled from the source. -/
def prependSpec (target source : SchemaSpec) : SchemaSpec :=
  { target with
    default := if target.default == JValue.undefined then source.default else target.default
    label := if target.label == none then source.label else target.label
    meta := if target.meta == JValue.undefined then source.meta else target.meta }

/-- The message thrown by `concat` on incompatible types (src/mixed.ts lines
236-239); the interpolated type names are not modelled. -/
def concatTypeErrorMsg : String :=
  "You cannot concat schemas of different types"

/-- The state of `concat` before re-registering the other schema's tests
(src/mixed.ts lines 241-260): the deep merge of the receiver under the other
schema's clone, with the default reverted to the other schema's when it
explicitly set one, `tests` and `_exclusive` replaced with the receiver's,
and the white/blacklists merged with the other schema taking precedence.
Array-valued fields merge by `sourceVal.concat(targetVal)` in `prependDeep`
(receiver first); the presence flags of the synthesized error tests merge as
"target if defined, else source", i.e. disjunction of the presence flags. -/
def concatNext0 (self other : MixedSchema) : MixedSchema where
  type := other.type
  spec :=
    let merged := prependSpec other.spec self.spec
    if other.spec.hasDefault then { merged with default := other.spec.default } else merged
  tests := self.tests
  _exclusive := self._exclusive
  _whitelist := self._whitelist.merge other._whitelist other._blacklist
  _blacklist := self._blacklist.merge other._blacklist other._whitelist
  transforms := self.transforms ++ other.transforms
  conditions := self.conditions ++ other.conditions
  deps := self.deps ++ other.deps
  _typeError := other._typeError || self._typeError
  _whitelistError := other._whitelistError || self._whitelistError
  _blacklistError := other._blacklistError || self._blacklistError
  _typeCheck := other._typeCheck
  _label := match other._label with | some l => some l | none => self._label
  _meta := if other._meta == JValue.undefined then self._meta else other._meta

/-- One step of the re-registration loop of `concat` viewed purely on the
`(tests, exclusivity table)` pair that `next.test(fn.OPTIONS)` reads and
writes: the same guard and registration core as `test()`. -/
def testStep (p : List TestConfig × List (String × Bool)) (opts : TestConfig) :
    Except String (List TestConfig × List (String × Bool)) :=
  if opts.exclusive && !truthyName opts.name then .error exclusiveNameError
  else .ok (registerTest p.1 p.2 opts)

/-- `concat(schema)` (src/mixed.ts lines 232-271): type guard, merge, revert
default, start from the receiver's tests and exclusivity table, merge the
value sets, then re-register every one of the other schema's tests through
the normal `test()` path inside a mutation window.  The reference-identity
fast path `schema === this` (line 234) is not expressible at the value
level and is omitted; it only short-circuits `s.concat(s)` to `s`. -/
def MixedSchema.concat (self other : MixedSchema) : Except String MixedSchema :=
  if other.type != self.type && self.type != "mixed" then .error concatTypeErrorMsg
  else
    match other.tests.foldlM testStep
        ((concatNext0 self other).tests, (concatNext0 self other)._exclusive) with
    | .error e => .error e
    | .ok p => .ok { concatNext0 self other with tests := p.1, _exclusive := p.2 }

/-- Helper extracting the schema from a successful `concat` (used to name
concrete schemas in closed statements). -/
def concatOk (self other : MixedSchema) : MixedSchema :=
  match self.concat other with
  | .ok t => t
  | .error _ => self

/-!
Aliasing model of the re-registration loop in `concat`.

At lines 248-249 the source assigns `next.tests = this.tests` and
`next._exclusive = this._exclusive`: JS object assignment, so `next` holds
references to the receiver's own tests array and exclusivity object.  The
subsequent `next.test(fn.OPTIONS)` calls run inside `withMutation`, so
`this.clone()` at line 583 returns `next` itself and every write goes to the
objects `next` currently references.  For `tests` the write is the
assignment at line 598 of the freshly allocated `filter` result, followed by
a `push` into that fresh array; for `_exclusive` the write at line 596
mutates the shared object in place.  `Store` models the array heap so this
distinction is derived rather than assumed.
-/

/-- A heap of JS arrays of tests, addressed by allocation index. -/
structure Store where
  cells : List (List TestConfig)
deriving DecidableEq, Repr

/-- Dereference an array handle. -/
def Store.read (st : Store) (h : Nat) : List TestConfig := st.cells.getD h []

/-- `array.filter(...)` allocates a fresh array: append a new cell. -/
def Store.alloc (st : Store) (a : List TestConfig) : Store × Nat :=
  (⟨st.cells ++ [a]⟩, st.cells.length)

/-- `array.push(v)` mutates the cell behind the handle in place. -/
def Store.push (st : Store) (h : Nat) (v : TestConfig) : Store :=
  ⟨st.cells.set h (st.cells.getD h [] ++ [v])⟩

/-- One `next.test(fn.OPTIONS)` call inside the `withMutation` window of
`concat`, acting on the array heap, the current handle of `next.tests`, and
the exclusivity object shared with the receiver (src/mixed.ts lines
583-606 with `clone()` returning `next` itself): guard, compute
`isExclusive` and update the shared table, allocate the filter result as a
fresh array, push the new test into it, and rebind `next.tests` to it. -/
def testInPlace (st : Store) (h : Nat) (tbl : List (String × Bool)) (opts : TestConfig) :
    Except String (Store × Nat × List (String × Bool)) :=
  if opts.exclusive && !truthyName opts.name then .error exclusiveNameError
  else
    let isExclusive :=
      opts.exclusive || (truthyName opts.name && (lookupExcl tbl opts.name == some true))
    let tbl1 :=
      match opts.name with
      | some k => if truthyName opts.name then setAssoc tbl k opts.exclusive else tbl
      | none => tbl
    let filtered := (st.read h).filter (keepTest isExclusive opts)
    let al := st.alloc filtered
    let st2 := al.1.push al.2 opts
    .ok (st2, al.2, tbl1)

/-- The observable outcome of a `concat` call including its effects on the
receiver: the result schema, the contents of the receiver's own `tests`
array after the call (handle 0 of the heap), and the contents of the
exclusivity object the receiver still references after the call. -/
structure ConcatOut where
  result : MixedSchema
  receiverTestsAfter : List TestConfig
  receiverExclAfter : List (String × Bool)

/-- The re-registration loop step on its state: the heap, the handle
currently bound to `next.tests`, and the shared exclusivity object. -/
def effTestStep (acc : Store × Nat × List (String × Bool)) (opts : TestConfig) :
    Except String (Store × Nat × List (String × Bool)) :=
  testInPlace acc.1 acc.2.1 acc.2.2 opts

/-- `concat` with the re-registration loop run against the array heap: the
heap starts with the receiver's tests array as cell 0, `next.tests` aliases
it (line 248), and the exclusivity table state is the single object shared
by `next` and the receiver (line 249), so its final state is both the
result's table and the receiver's. -/
def concatEff (self other : MixedSchema) : Except String ConcatOut :=
  if other.type != self.type && self.type != "mixed" then .error concatTypeErrorMsg
  else
    match other.tests.foldlM effTestStep
        ((⟨[(concatNext0 self other).tests]⟩, 0, (concatNext0 self other)._exclusive) :
          Store × Nat × List (String × Bool)) with
    | .error e => .error e
    | .ok acc =>
      .ok
        { result :=
            { concatNext0 self other with
              tests := acc.1.read acc.2.1
              _exclusive := acc.2.2 }
          receiverTestsAfter := acc.1.read 0
          receiverExclAfter := acc.2.2 }

/-!  Validation pipeline (src/mixed.ts lines 354-417). -/

/-- Identity of a test run by `_validate`: one of the three synthesized
error tests, or a user-registered test from the `tests` queue. -/
inductive TestId where
  | typeErr
  | whiteErr
  | blackErr
  | user (cfg : TestConfig)
deriving DecidableEq, Repr

def TestId.isUser : TestId → Bool
  | .user _ => true
  | _ => false

/-- Internal validation options (the fields of `InternalOptions` that
`_validate` branches on; `none` is an absent key, falling back to the
spec). -/
structure InternalOptions where
  strictO : Option Bool := none
  abortEarlyO : Option Bool := none

/-- Environment giving meaning to the opaque functions reached during test
execution: reference resolution (`this.resolve` inside the synthesized
tests) and the user test functions by identity. -/
structure TestEnv where
  resolveRef : Reference → JValue := fun _ => JValue.undefined
  runUser : Nat → JValue → Bool := fun _ _ => true

/-- Run one test against the (cast) value, returning `true` on pass.  The
bodies of the three synthesized tests are taken from their closures:
type error (lines 641-649), whitelist error (lines 665-676), blacklist
error (lines 692-701); `this.schema` in those closures is the schema under
validation. -/
def runOneTest (s : MixedSchema) (env : TestEnv) (value : JValue) : TestId → Bool
  | .typeErr => if value ≠ JValue.undefined ∧ s.isType value = false then false else true
  | .whiteErr =>
    if value == JValue.undefined then true else s._whitelist.has value env.resolveRef
  | .blackErr => !(s._blacklist.has value env.resolveRef)
  | .user cfg => env.runUser cfg.test value

/-- Modelled from the spec: `util/runTests` (not under `src/`), synchronous
semantics.  Drives the tests strictly in order; with `endEarly` it stops at
the first failure and reports that single error, otherwise it runs every
test and aggregates all failures in order.  Returns (executed tests in
execution order, failed tests in order). -/
def runTestsSync (endEarly : Bool) (runT : TestId → Bool) :
    List TestId → List TestId × List TestId
  | [] => ([], [])
  | t :: ts =>
    if runT t then
      let r := runTestsSync endEarly runT ts
      (t :: r.1, r.2)
    else if endEarly then ([t], [t])
    else
      let r := runTestsSync endEarly runT ts
      (t :: r.1, t :: r.2)

/-- The effective `strict` option (`strict = this.spec.strict` destructuring
default, line 364). -/
def MixedSchema.effStrict (s : MixedSchema) (o : InternalOptions) : Bool :=
  o.strictO.getD s.spec.strict

/-- The effective `abortEarly` option (line 365). -/
def MixedSchema.effAbortEarly (s : MixedSchema) (o : InternalOptions) : Bool :=
  o.abortEarlyO.getD s.spec.abortEarly

/-- The value the tests run against: unless strict, re-cast with the
assertion disabled (lines 369-373). -/
def MixedSchema.preValue (s : MixedSchema) (v : JValue) (o : InternalOptions) : JValue :=
  if s.effStrict o then v else s._cast v { assert := some false }

/-- The synthesized initial test batch, in push order: type error,
whitelist error, blacklist error (lines 386-390). -/
def MixedSchema.initialTests (s : MixedSchema) : List TestId :=
  (if s._typeError then [TestId.typeErr] else []) ++
    (if s._whitelistError then [TestId.whiteErr] else []) ++
      (if s._blacklistError then [TestId.blackErr] else [])

/-- The first `runTests` call of `_validate` (lines 392-400). -/
def MixedSchema.initialRun (s : MixedSchema) (env : TestEnv) (v : JValue)
    (o : InternalOptions) : List TestId × List TestId :=
  runTestsSync (s.effAbortEarly o) (runOneTest s env (s.preValue v o)) s.initialTests

/-- The second `runTests` call of `_validate`, over the user test queue
(lines 404-413). -/
def MixedSchema.userRun (s : MixedSchema) (env : TestEnv) (v : JValue)
    (o : InternalOptions) : List TestId × List TestId :=
  runTestsSync (s.effAbortEarly o) (runOneTest s env (s.preValue v o))
    (s.tests.map TestId.user)

/-- `_validate(value, options, cb)` (lines 354-417): cast unless strict, run
the synthesized batch, and only if it reported no error (`if (err) return
void cb(err, value)`) run the user test queue under the same abort-early
policy.  Returns (executed tests in order, the callback outcome). -/
def MixedSchema._validate (s : MixedSchema) (env : TestEnv) (v : JValue)
    (o : InternalOptions) : List TestId × Except (List TestId) JValue :=
  let r1 := s.initialRun env v o
  if r1.2.isEmpty then
    let r2 := s.userRun env v o
    (r1.1 ++ r2.1, if r2.2.isEmpty then .ok (s.preValue v o) else .error r2.2)
  else (r1.1, .error r1.2)

/-!
Identity-level model of `clone()` (src/mixed.ts lines 200-208) and the
batch-mutation window (lines 224-230).

The value-level model above treats `clone` as the identity on values.  What
the value level cannot express is which *objects* a clone shares with the
original.  Here the field values of a schema node are modelled as trees
whose mutable containers (objects/arrays) carry an identity tag, and nested
schema values carry their own identity; `cloneDeepWith` with the customizer
`(value) => { if (isSchema(value) && value !== this) return value; }`
renumbers every container with fresh identities and returns nested schema
values untouched.
-/

mutual
/-- A field value of a schema node: a primitive, a nested schema value
(returned by reference by the clone customizer), or a mutable container
(object or array) with an identity tag and children. -/
inductive JTree where
  | leaf : JValue → JTree
  | schemaVal : Nat → JTree
  | node : Nat → JTreeList → JTree
deriving DecidableEq, Repr
inductive JTreeList where
  | nil : JTreeList
  | cons : JTree → JTreeList → JTreeList
deriving DecidableEq, Repr
end

mutual
/-- `cloneDeepWith` with the `isSchema` customizer: primitives copy,
nested schema values return by reference (same identity), containers are
rebuilt with a fresh identity.  `fresh` is the next unused identity; the
second component is the next unused identity after the copy. -/
def cloneTree : Nat → JTree → JTree × Nat
  | fresh, .leaf v => (.leaf v, fresh)
  | fresh, .schemaVal i => (.schemaVal i, fresh)
  | fresh, .node _ cs =>
    let r := cloneTreeList (fresh + 1) cs
    (.node fresh r.1, r.2)
def cloneTreeList : Nat → JTreeList → JTreeList × Nat
  | fresh, .nil => (.nil, fresh)
  | fresh, .cons t ts =>
    let r := cloneTree fresh t
    let r2 := cloneTreeList r.2 ts
    (.cons r.1 r2.1, r2.2)
end

mutual
/-- Identities of the nested schema values of a tree, in order. -/
def schemaIdsT : JTree → List Nat
  | .leaf _ => []
  | .schemaVal i => [i]
  | .node _ cs => schemaIdsL cs
def schemaIdsL : JTreeList → List Nat
  | .nil => []
  | .cons t ts => schemaIdsT t ++ schemaIdsL ts
end

mutual
/-- Identities of the mutable containers of a tree. -/
def objIdsT : JTree → List Nat
  | .leaf _ => []
  | .schemaVal _ => []
  | .node i cs => i :: objIdsL cs
def objIdsL : JTreeList → List Nat
  | .nil => []
  | .cons t ts => objIdsT t ++ objIdsL ts
end

mutual
/-- Erase the container identities (keep structure, primitives and nested
schema identities): two trees equal after `stripIdsT` are structurally
equal copies of each other. -/
def stripIdsT : JTree → JTree
  | .leaf v => .leaf v
  | .schemaVal i => .schemaVal i
  | .node _ cs => .node 0 (stripIdsL cs)
def stripIdsL : JTreeList → JTreeList
  | .nil => .nil
  | .cons t ts => .cons (stripIdsT t) (stripIdsL ts)
end

/-- A schema node at the identity level: its own object identity, the
`_mutate` batch-mutation flag, and its field values. -/
structure SchemaNode where
  sid : Nat
  mutate : Bool
  fields : JTreeList
deriving DecidableEq, Repr

/-- `clone()` (lines 200-208): inside a batch-mutation window return `this`
itself; otherwise a structural deep copy with a fresh object identity, whose
nested schema values are returned by reference (the `value !== this` guard
means the root schema itself is not short-circuited). -/
def cloneNode (fresh : Nat) (s : SchemaNode) : SchemaNode × Nat :=
  if s.mutate then (s, fresh)
  else
    let r := cloneTreeList (fresh + 1) s.fields
    ({ sid := fresh, mutate := s.mutate, fields := r.1 }, r.2)

/-- `withMutation(fn)` (lines 224-230): save the flag, set it, run `fn`,
restore the saved flag (nested windows restore, not clear). -/
def SchemaNode.withMutation {α : Type} (s : SchemaNode) (fn : SchemaNode → SchemaNode × α) :
    SchemaNode × α :=
  let before := s.mutate
  let s1 := { s with mutate := true }
  let r := fn s1
  ({ r.1 with mutate := before }, r.2)

/-! Concrete schemas and configs used in closed statements. -/

/-- The identity condition environment (branches that return the schema). -/
def envId : CondEnv := fun _ schema _ => schema

/-- A subclass-style schema whose `_typeCheck` rejects `null` (the override
point the concrete leaf kinds use), with an explicitly configured `null`
default. -/
def nullRejecting : MixedSchema :=
  { MixedSchema.default create JValue.null with _typeCheck := fun v => !(v == JValue.null) }

/-- A subclass-style schema whose `_typeCheck` rejects every value. -/
def rejectAll : MixedSchema :=
  { create with _typeCheck := fun _ => false }

def cfgA1 : TestConfig := { name := some "x", exclusive := true, test := 1 }
def cfgA2 : TestConfig := { name := some "x", exclusive := true, test := 2 }
def cfgB1 : TestConfig := { name := some "y", exclusive := false, test := 1 }
def cfgB2 : TestConfig := { name := some "y", exclusive := false, test := 2 }
def cfgC : TestConfig := { name := some "z", exclusive := false, test := 3 }

/-- The other schema of the `concat` aliasing counterexample: a fresh mixed
schema carrying one named exclusive test. -/
def bC3 : MixedSchema := testOk create cfgA1

/-- Helper extracting the outcome of a successful `concatEff`. -/
def concatEffOk (self other : MixedSchema) : ConcatOut :=
  match concatEff self other with
  | .ok o => o
  | .error _ => ⟨self, self.tests, self._exclusive⟩

end Yup

namespace Yup

/-! Helper lemmas. -/

theorem filter_sub_nil {l : List TestConfig} {p q : TestConfig → Bool}
    (h : ∀ a, q a = true → p a = false) : (l.filter p).filter q = [] := by
  apply List.eq_nil_iff_forall_not_mem.mpr
  intro a ha
  rw [List.mem_filter] at ha
  obtain ⟨ha1, ha2⟩ := ha
  rw [List.mem_filter] at ha1
  have := h a ha2
  rw [this] at ha1
  exact Bool.false_ne_true ha1.2

theorem lookupExcl_setAssoc (tbl : List (String × Bool)) (k : String) (b : Bool) :
    lookupExcl (setAssoc tbl k b) (some k) = some b := by
  induction tbl with
  | nil => simp [setAssoc, lookupExcl]
  | cons p tl ih =>
    by_cases h : p.1 == k
    · simp [setAssoc, h, lookupExcl]
    · simp only [setAssoc, h, if_false, Bool.false_eq_true, lookupExcl] at ih ⊢
      rw [List.find?_cons_of_neg _ (by simpa using h)]
      exact ih

/-- C1: test registration implements the three coexistence policies of one
filter rule.  (a) A registration that is exclusive, or whose truthy name is
flagged exclusive in the exclusivity table, removes every existing test of
that name before appending, so the tests of that name in the result are
exactly the new config (which carries the newest test function).  (b) Two
non-exclusive registrations under the same name with different underlying
test functions both remain in the queue.  (c) Registering a test whose name
and underlying test function match an already-registered test leaves exactly
one copy of that rule in the queue, whatever the exclusivity flag. -/
theorem mixed_test_coexistence :
    (∀ (s : MixedSchema) (opts : TestConfig) (s' : MixedSchema),
       truthyName opts.name = true →
       (opts.exclusive = true ∨ lookupExcl s._exclusive opts.name = some true) →
       s.test opts = .ok s' →
       s'.tests.filter (fun t => t.name == opts.name) = [opts])
  ∧ (∀ (s : MixedSchema) (cfg1 cfg2 : TestConfig) (s1 s2 : MixedSchema),
       cfg1.name = cfg2.name → cfg1.exclusive = false → cfg2.exclusive = false →
       cfg1.test ≠ cfg2.test →
       s.test cfg1 = .ok s1 → s1.test cfg2 = .ok s2 →
       cfg1 ∈ s2.tests ∧ cfg2 ∈ s2.tests)
  ∧ (∀ (s : MixedSchema) (opts : TestConfig) (s' : MixedSchema),
       (∃ t ∈ s.tests, t.name = opts.name ∧ t.test = opts.test) →
       s.test opts = .ok s' →
       s'.tests.filter (fun t => t.name == opts.name && t.test == opts.test) = [opts]) := by
  refine ⟨?_, ?_, ?_⟩
  · -- (a) exclusive replacement
    intro s opts s' htruthy hexcl h
    have hguard : (opts.exclusive && !truthyName opts.name) = false := by
      simp [htruthy]
    have hisex :
        (opts.exclusive ||
          (truthyName opts.name && (lookupExcl s._exclusive opts.name == some true))) = true := by
      rcases hexcl with he | hl
      · simp [he]
      · simp [htruthy, hl]
    unfold MixedSchema.test at h
    simp only [hguard, Bool.false_eq_true, if_false, registerTest, MixedSchema.clone,
      Except.ok.injEq] at h
    subst h
    simp only [hisex]
    rw [List.filter_append]
    rw [filter_sub_nil (p := keepTest true opts) (fun a hq => by simp [keepTest, hq])]
    simp
  · -- (b) non-exclusive stacking
    intro s cfg1 cfg2 s1 s2 hname hex1 hex2 hne h1 h2
    have hguard1 : (cfg1.exclusive && !truthyName cfg1.name) = false := by simp [hex1]
    have hguard2 : (cfg2.exclusive && !truthyName cfg2.name) = false := by simp [hex2]
    unfold MixedSchema.test at h1 h2
    simp only [hguard1, Bool.false_eq_true, if_false, registerTest, MixedSchema.clone,
      Except.ok.injEq] at h1
    subst h1
    simp only [hguard2, Bool.false_eq_true, if_false, registerTest, MixedSchema.clone,
      Except.ok.injEq] at h2
    subst h2
    simp only []
    have hisex2 :
        (cfg2.exclusive ||
          (truthyName cfg2.name &&
            (lookupExcl
              (match cfg1.name with
               | some k => if truthyName cfg1.name then setAssoc s._exclusive k cfg1.exclusive
                           else s._exclusive
               | none => s._exclusive) cfg2.name == some true))) = false := by
      rw [hex2, Bool.false_or]
      cases hcn : cfg2.name with
      | none => simp [truthyName]
      | some k =>
        have hcn1 : cfg1.name = some k := hname.trans hcn
        rw [hcn1]
        by_cases htr : truthyName (some k) = true
        · simp [htr, hex1, lookupExcl_setAssoc]
        · rw [Bool.not_eq_true] at htr
          simp [htr]
    rw [hisex2]
    constructor
    · apply List.mem_append_left
      rw [List.mem_filter]
      constructor
      · exact List.mem_append_right _ (List.mem_singleton.mpr rfl)
      · have hb1 : (cfg1.name == cfg2.name) = true := by rw [hname]; exact beq_self_eq_true _
        have hb2 : (cfg1.test == cfg2.test) = false := beq_eq_false_iff_ne.mpr hne
        simp [keepTest, hb1, hb2]
    · exact List.mem_append_right _ (List.mem_singleton.mpr rfl)
  · -- (c) idempotent re-registration
    intro s opts s' _ h
    unfold MixedSchema.test at h
    by_cases hguard : (opts.exclusive && !truthyName opts.name) = true
    · rw [hguard] at h; simp at h
    · rw [Bool.not_eq_true] at hguard
      simp only [hguard, Bool.false_eq_true, if_false, registerTest, MixedSchema.clone,
        Except.ok.injEq] at h
      subst h
      simp only []
      rw [List.filter_append]
      rw [filter_sub_nil (fun a hq => by
        rw [Bool.and_eq_true] at hq
        cases hb : (opts.exclusive ||
          (truthyName opts.name && (lookupExcl s._exclusive opts.name == some true))) <;>
          simp [keepTest, hq.1, hq.2, hb])]
      simp

/-- Witness for `mixed_test_coexistence`: the three policies at concrete
inputs, built through the public `test` method from `create()`. -/
theorem mixed_test_coexistence_witness :
    (testOk (testOk create cfgA1) cfgA2).tests.filter (fun t => t.name == cfgA2.name) = [cfgA2]
  ∧ (cfgB1 ∈ (testOk (testOk create cfgB1) cfgB2).tests
      ∧ cfgB2 ∈ (testOk (testOk create cfgB1) cfgB2).tests)
  ∧ (testOk (testOk create cfgC) cfgC).tests.filter
      (fun t => t.name == cfgC.name && t.test == cfgC.test) = [cfgC] := by
  refine ⟨?_, ?_, ?_⟩
  · exact mixed_test_coexistence.1 (testOk create cfgA1) cfgA2 _ (by decide) (Or.inl rfl) rfl
  · exact mixed_test_coexistence.2.1 create cfgB1 cfgB2 (testOk create cfgB1)
      (testOk (testOk create cfgB1) cfgB2) rfl rfl rfl (by decide) rfl rfl
  · exact mixed_test_coexistence.2.2 (testOk create cfgC) cfgC _ (by decide) rfl

/-- C2: the default of `A.concat(B)` is `B`'s default whenever `B`
explicitly set one (`spec.hasDefault`, even if it set `undefined`), and
otherwise `A`'s default is preserved (the spec invariant that `hasDefault`
is true iff a default was explicitly set means a schema without an explicit
default carries `default: undefined`). -/
theorem concat_default_precedence (a b res : MixedSchema)
    (h : a.concat b = .ok res) :
    (b.spec.hasDefault = true → res.spec.default = b.spec.default)
  ∧ (b.spec.hasDefault = false → b.spec.default = JValue.undefined →
      res.spec.default = a.spec.default) := by
  have hspec : res.spec = (concatNext0 a b).spec := by
    unfold MixedSchema.concat at h
    split at h
    · exact absurd h (by simp)
    · split at h
      · exact absurd h (by simp)
      · rw [Except.ok.injEq] at h
        rw [← h]
  rw [hspec]
  constructor
  · intro hbd
    simp [concatNext0, hbd]
  · intro hbd hundef
    simp [concatNext0, hbd, prependSpec, hundef]

/-- Witness for `concat_default_precedence`: `A.default(1).concat(B)` keeps
default `1` when `B` set no default, and takes default `2` from
`B.default(2)`. -/
theorem concat_default_precedence_witness :
    (concatOk (MixedSchema.default create (.num 1)) create).spec.default = .num 1
  ∧ (concatOk (MixedSchema.default create (.num 1))
      (MixedSchema.default create (.num 2))).spec.default = .num 2 := by
  constructor
  · have h := concat_default_precedence (MixedSchema.default create (.num 1)) create
      (concatOk (MixedSchema.default create (.num 1)) create) rfl
    rw [h.2 rfl rfl]
    rfl
  · have h := concat_default_precedence (MixedSchema.default create (.num 1))
      (MixedSchema.default create (.num 2))
      (concatOk (MixedSchema.default create (.num 1)) (MixedSchema.default create (.num 2))) rfl
    rw [h.1 rfl]
    rfl

theorem getD_append_length {α : Type} (l : List α) (a d : α) :
    (l ++ [a]).getD l.length d = a := by
  induction l with
  | nil => rfl
  | cons x xs ih => exact ih

theorem set_append_length {α : Type} (l : List α) (a b : α) :
    (l ++ [a]).set l.length b = l ++ [b] := by
  induction l with
  | nil => rfl
  | cons x xs ih => simp [List.set, ih]

theorem head?_append_singleton {α : Type} (l : List α) (x : α) (h : l ≠ []) :
    (l ++ [x]).head? = l.head? := by
  cases l with
  | nil => exact absurd rfl h
  | cons a as => rfl

theorem getD_zero_head? {α : Type} (l : List α) (a d : α) (h : l.head? = some a) :
    l.getD 0 d = a := by
  cases l with
  | nil => simp at h
  | cons x xs => simp at h; simp [h]

/-- A guarded `testInPlace` call appends exactly one cell holding the pure
registration result and rebinds the handle to it; in particular it never
writes to any existing cell. -/
theorem testInPlace_ok (st : Store) (hd : Nat) (tbl : List (String × Bool))
    (opts : TestConfig) (hg : (opts.exclusive && !truthyName opts.name) = false) :
    testInPlace st hd tbl opts =
      .ok (⟨st.cells ++ [(registerTest (st.read hd) tbl opts).1]⟩, st.cells.length,
        (registerTest (st.read hd) tbl opts).2) := by
  unfold testInPlace registerTest
  rw [hg]
  simp only [Bool.false_eq_true, if_false, Except.ok.injEq]
  simp [Store.alloc, Store.push, Store.read, getD_append_length, set_append_length]

/-- The re-registration loop agrees with the pure fold of `test()` steps on
the contents behind the final handle and the shared table, and it preserves
cell 0 (the receiver's tests array): each step only appends fresh cells. -/
theorem foldTestInPlace_spec (cfgs : List TestConfig) :
    ∀ (st : Store) (hd : Nat) (tbl : List (String × Bool)), st.cells ≠ [] →
      ((cfgs.foldlM effTestStep ((st, hd, tbl) : Store × Nat × List (String × Bool))).map
          (fun acc => (acc.1.read acc.2.1, acc.2.2)) =
        cfgs.foldlM testStep (st.read hd, tbl))
    ∧ (∀ acc, cfgs.foldlM effTestStep ((st, hd, tbl) : Store × Nat × List (String × Bool)) =
          .ok acc →
        acc.1.cells.head? = st.cells.head? ∧ acc.1.cells ≠ []) := by
  induction cfgs with
  | nil =>
    intro st hd tbl hne
    constructor
    · rfl
    · intro acc hacc
      simp only [List.foldlM, Except.pure, pure, Except.ok.injEq] at hacc
      rw [← hacc]
      exact ⟨rfl, hne⟩
  | cons opts cfgs ih =>
    intro st hd tbl hne
    by_cases hg : (opts.exclusive && !truthyName opts.name) = true
    · constructor
      · simp only [List.foldlM_cons, effTestStep, testInPlace, testStep, hg, if_true]
        rfl
      · intro acc hacc
        simp only [List.foldlM_cons, effTestStep, testInPlace, hg, if_true] at hacc
        have hacc2 : (Except.error exclusiveNameError :
            Except String (Store × Nat × List (String × Bool))) = Except.ok acc := hacc
        simp at hacc2
    · rw [Bool.not_eq_true] at hg
      have hA : effTestStep ((st, hd, tbl) : Store × Nat × List (String × Bool)) opts =
          .ok (⟨st.cells ++ [(registerTest (st.read hd) tbl opts).1]⟩, st.cells.length,
            (registerTest (st.read hd) tbl opts).2) := testInPlace_ok st hd tbl opts hg
      have hB : testStep (st.read hd, tbl) opts = .ok (registerTest (st.read hd) tbl opts) := by
        simp [testStep, hg]
      have hmain := ih ⟨st.cells ++ [(registerTest (st.read hd) tbl opts).1]⟩
        st.cells.length (registerTest (st.read hd) tbl opts).2 (by simp)
      have hread : (Store.read ⟨st.cells ++ [(registerTest (st.read hd) tbl opts).1]⟩
          st.cells.length) = (registerTest (st.read hd) tbl opts).1 := by
        simp [Store.read, getD_append_length]
      constructor
      · rw [List.foldlM_cons, List.foldlM_cons, hA, hB]
        have := hmain.1
        rw [hread] at this
        exact this
      · intro acc hacc
        rw [List.foldlM_cons, hA] at hacc
        have h2 := hmain.2 acc hacc
        refine ⟨h2.1.trans (head?_append_singleton _ _ hne), h2.2⟩

/-- C3 (counterexample): `concat` does mutate the receiver.  For a fresh
mixed schema `a = create()` and `b` carrying one named exclusive test,
re-registering `b`'s tests writes `exclusive["x"] = true` into the
exclusivity object that line 249 shares between the result and the
receiver, so after the call the receiver's exclusivity table is
`[("x", true)]`, not its pre-call value `[]`. -/
theorem concat_mutates_receiver_exclusive_table :
    create._exclusive = []
  ∧ (concatEff create bC3).map (fun o => o.receiverExclAfter) = .ok [("x", true)]
  ∧ (concatEff create bC3).map (fun o => o.receiverExclAfter) ≠ .ok create._exclusive := by
  refine ⟨rfl, by decide, by decide⟩

/-- C3 (amended): `concat` never mutates the receiver's tests array — the
result's queue starts from the receiver's array and every re-registration
step rebinds `next.tests` to a freshly allocated `filter` result, so cell 0
still holds the receiver's original tests after the call, and the result's
queue and table are exactly the pure fold of `test()` registrations of the
other schema's tests over the receiver's tests and table.  However the
result shares the receiver's exclusivity object rather than a copy: the
receiver's table after the call is the result's table, which registration
of named tests updates in place. -/
theorem concat_frame_amended (self other : MixedSchema) (out : ConcatOut)
    (h : concatEff self other = .ok out) :
    out.receiverTestsAfter = self.tests
  ∧ out.receiverExclAfter = out.result._exclusive
  ∧ other.tests.foldlM testStep (self.tests, self._exclusive) =
      .ok (out.result.tests, out.result._exclusive) := by
  unfold concatEff at h
  split at h
  · exact absurd h (by simp)
  · have hspec := foldTestInPlace_spec other.tests ⟨[(concatNext0 self other).tests]⟩ 0
      (concatNext0 self other)._exclusive (by simp)
    cases hm : other.tests.foldlM effTestStep
        ((⟨[(concatNext0 self other).tests]⟩, 0, (concatNext0 self other)._exclusive) :
          Store × Nat × List (String × Bool)) with
    | error e => rw [hm] at h; simp at h
    | ok acc =>
      rw [hm] at h
      simp only [Except.ok.injEq] at h
      subst h
      have hpure := hspec.1
      rw [hm] at hpure
      have hhead := hspec.2 acc hm
      refine ⟨?_, rfl, ?_⟩
      · exact getD_zero_head? _ _ _ hhead.1
      · exact hpure.symm

/-- Witness for `concat_frame_amended` at the counterexample inputs. -/
theorem concat_frame_amended_witness :
    (concatEffOk create bC3).receiverTestsAfter = create.tests
  ∧ (concatEffOk create bC3).receiverExclAfter = (concatEffOk create bC3).result._exclusive
  ∧ bC3.tests.foldlM testStep (create.tests, create._exclusive) =
      .ok ((concatEffOk create bC3).result.tests, (concatEffOk create bC3).result._exclusive) := by
  exact concat_frame_amended create bC3 (concatEffOk create bC3) rfl

mutual
theorem cloneTree_fresh_le : ∀ (f : Nat) (t : JTree), f ≤ (cloneTree f t).2
  | f, .leaf _ => Nat.le_refl f
  | f, .schemaVal _ => Nat.le_refl f
  | f, .node _ cs => Nat.le_trans (Nat.le_succ f) (cloneTreeList_fresh_le (f + 1) cs)
theorem cloneTreeList_fresh_le : ∀ (f : Nat) (ts : JTreeList), f ≤ (cloneTreeList f ts).2
  | _, .nil => Nat.le_refl _
  | f, .cons t ts =>
    Nat.le_trans (cloneTree_fresh_le f t) (cloneTreeList_fresh_le (cloneTree f t).2 ts)
end

mutual
theorem schemaIds_cloneTree : ∀ (f : Nat) (t : JTree),
    schemaIdsT (cloneTree f t).1 = schemaIdsT t
  | _, .leaf _ => rfl
  | _, .schemaVal _ => rfl
  | f, .node _ cs => schemaIds_cloneTreeList (f + 1) cs
theorem schemaIds_cloneTreeList : ∀ (f : Nat) (ts : JTreeList),
    schemaIdsL (cloneTreeList f ts).1 = schemaIdsL ts
  | _, .nil => rfl
  | f, .cons t ts => by
    show schemaIdsT (cloneTree f t).1 ++ schemaIdsL (cloneTreeList (cloneTree f t).2 ts).1 =
      schemaIdsT t ++ schemaIdsL ts
    rw [schemaIds_cloneTree f t, schemaIds_cloneTreeList (cloneTree f t).2 ts]
end

mutual
theorem stripIds_cloneTree : ∀ (f : Nat) (t : JTree),
    stripIdsT (cloneTree f t).1 = stripIdsT t
  | _, .leaf _ => rfl
  | _, .schemaVal _ => rfl
  | f, .node _ cs => by
    show JTree.node 0 (stripIdsL (cloneTreeList (f + 1) cs).1) = JTree.node 0 (stripIdsL cs)
    rw [stripIds_cloneTreeList (f + 1) cs]
theorem stripIds_cloneTreeList : ∀ (f : Nat) (ts : JTreeList),
    stripIdsL (cloneTreeList f ts).1 = stripIdsL ts
  | _, .nil => rfl
  | f, .cons t ts => by
    show JTreeList.cons (stripIdsT (cloneTree f t).1)
        (stripIdsL (cloneTreeList (cloneTree f t).2 ts).1) =
      JTreeList.cons (stripIdsT t) (stripIdsL ts)
    rw [stripIds_cloneTree f t, stripIds_cloneTreeList (cloneTree f t).2 ts]
end

mutual
theorem objIds_cloneTree_ge : ∀ (f : Nat) (t : JTree),
    ∀ j ∈ objIdsT (cloneTree f t).1, f ≤ j
  | _, .leaf _ => by intro j hj; simp [cloneTree, objIdsT] at hj
  | _, .schemaVal _ => by intro j hj; simp [cloneTree, objIdsT] at hj
  | f, .node i cs => by
    intro j hj
    have : j = f ∨ j ∈ objIdsL (cloneTreeList (f + 1) cs).1 := by
      simpa [cloneTree, objIdsT] using hj
    rcases this with rfl | hj2
    · exact Nat.le_refl j
    · exact Nat.le_trans (Nat.le_succ f) (objIds_cloneTreeList_ge (f + 1) cs j hj2)
theorem objIds_cloneTreeList_ge : ∀ (f : Nat) (ts : JTreeList),
    ∀ j ∈ objIdsL (cloneTreeList f ts).1, f ≤ j
  | _, .nil => by intro j hj; simp [cloneTreeList, objIdsL] at hj
  | f, .cons t ts => by
    intro j hj
    have : j ∈ objIdsT (cloneTree f t).1 ++
        objIdsL (cloneTreeList (cloneTree f t).2 ts).1 := hj
    rcases List.mem_append.1 this with hj1 | hj2
    · exact objIds_cloneTree_ge f t j hj1
    · exact Nat.le_trans (cloneTree_fresh_le f t)
        (objIds_cloneTreeList_ge (cloneTree f t).2 ts j hj2)
end

/-- C4: `clone()` identity semantics.  Inside a batch-mutation window the
clone is the receiver itself.  Otherwise the clone is a fresh object
(`sid = fresh`) whose nested schema values are the identical objects
(their identities are preserved, in order), whose non-schema structure is a
structurally equal copy, and whose mutable containers are all fresh objects
disjoint from the original's — hence mutating a container of the clone
(for example its `tests` array) never affects the original's. -/
theorem clone_identity_semantics :
    (∀ (f : Nat) (s : SchemaNode), s.mutate = true → cloneNode f s = (s, f))
  ∧ (∀ (f : Nat) (s : SchemaNode), s.mutate = false →
      schemaIdsL (cloneNode f s).1.fields = schemaIdsL s.fields)
  ∧ (∀ (f : Nat) (s : SchemaNode), s.mutate = false →
      stripIdsL (cloneNode f s).1.fields = stripIdsL s.fields)
  ∧ (∀ (f : Nat) (s : SchemaNode), s.mutate = false → (cloneNode f s).1.sid = f)
  ∧ (∀ (f : Nat) (s : SchemaNode), s.mutate = false →
      (∀ a ∈ objIdsL s.fields, a < f) →
      ∀ i ∈ objIdsL s.fields, ∀ j ∈ objIdsL (cloneNode f s).1.fields, i ≠ j) := by
  refine ⟨?_, ?_, ?_, ?_, ?_⟩
  · intro f s hm; simp [cloneNode, hm]
  · intro f s hm; simp only [cloneNode, hm, Bool.false_eq_true, if_false]
    exact schemaIds_cloneTreeList (f + 1) s.fields
  · intro f s hm; simp only [cloneNode, hm, Bool.false_eq_true, if_false]
    exact stripIds_cloneTreeList (f + 1) s.fields
  · intro f s hm; simp [cloneNode, hm]
  · intro f s hm hlt i hi j hj
    simp only [cloneNode, hm, Bool.false_eq_true, if_false] at hj
    have hjge : f + 1 ≤ j := objIds_cloneTreeList_ge (f + 1) s.fields j hj
    have hilt : i < f := hlt i hi
    omega

/-- A concrete schema node outside a mutation window: one container field
(identity 3) holding one nested schema value (identity 7). -/
def nodeEx : SchemaNode :=
  { sid := 0
    mutate := false
    fields := .cons (.node 3 (.cons (.schemaVal 7) .nil)) .nil }

/-- The same node inside a batch-mutation window. -/
def nodeMut : SchemaNode := { nodeEx with mutate := true }

/-- Witness for `clone_identity_semantics` at concrete inputs. -/
theorem clone_identity_semantics_witness :
    cloneNode 10 nodeMut = (nodeMut, 10)
  ∧ schemaIdsL (cloneNode 10 nodeEx).1.fields = schemaIdsL nodeEx.fields
  ∧ stripIdsL (cloneNode 10 nodeEx).1.fields = stripIdsL nodeEx.fields
  ∧ (cloneNode 10 nodeEx).1.sid = 10
  ∧ (∀ i ∈ objIdsL nodeEx.fields, ∀ j ∈ objIdsL (cloneNode 10 nodeEx).1.fields, i ≠ j) := by
  refine ⟨clone_identity_semantics.1 10 nodeMut rfl,
    clone_identity_semantics.2.1 10 nodeEx rfl,
    clone_identity_semantics.2.2.1 10 nodeEx rfl,
    clone_identity_semantics.2.2.2.1 10 nodeEx rfl,
    clone_identity_semantics.2.2.2.2 10 nodeEx rfl (by decide)⟩

/-- C5 (counterexample): `cast` does not throw whenever `isType` rejects the
cast result.  For a schema whose `_typeCheck` rejects `null` (a concrete
leaf kind) with configured default `null`, casting `undefined` with the
assertion enabled returns the default even though `isType` rejects it:
line 317 skips the assertion entirely when the raw value is `undefined`. -/
theorem cast_missing_undefined_guard_cex :
    (({} : CastOptions).assert ≠ some false)
  ∧ nullRejecting.isType (nullRejecting._cast JValue.undefined {}) = false
  ∧ MixedSchema.cast envId 1 nullRejecting JValue.undefined {} = some (Except.ok JValue.null) := by
  refine ⟨by decide, by decide, by decide⟩

/-- C5 (amended): unless `options.assert === false`, `cast` throws the
post-cast type error exactly when the raw input value is not `undefined`
and the resolved schema's `isType` rejects the cast result; otherwise it
returns the cast result. -/
theorem cast_type_assertion_amended (env : CondEnv) (fuel : Nat) (s : MixedSchema)
    (v : JValue) (options : CastOptions) (rs : MixedSchema)
    (h : MixedSchema.resolve env fuel s { value := v, context := options.context } = some rs) :
    MixedSchema.cast env fuel s v options =
      some
        (if v ≠ JValue.undefined ∧ options.assert ≠ some false ∧
            rs.isType (rs._cast v options) ≠ true
         then Except.error castTypeError
         else Except.ok (rs._cast v options)) := by
  unfold MixedSchema.cast
  rw [h]
  show (if v ≠ JValue.undefined ∧ options.assert ≠ some false ∧
          rs.isType (rs._cast v options) ≠ true
        then some (Except.error castTypeError)
        else some (Except.ok (rs._cast v options))) = _
  split <;> rfl

/-- Witness for `cast_type_assertion_amended`: a schema whose `_typeCheck`
rejects everything throws the cast type error on a defined input. -/
theorem cast_type_assertion_amended_witness :
    MixedSchema.cast envId 1 rejectAll (.num 1) {} = some (Except.error castTypeError) := by
  have h := cast_type_assertion_amended envId 1 rejectAll (.num 1) {} rejectAll rfl
  exact h.trans (by decide)

/-- C6 (counterexample): `isType(null)` does not imply `spec.nullable`.  The
base mixed schema built by `create()` has `nullable: false`, yet its
`_typeCheck` accepts every value, so `isType(null)` is `true`. -/
theorem isType_null_mixed_cex :
    create.isType JValue.null = true ∧ create.spec.nullable = false := by
  exact ⟨rfl, rfl⟩

/-- C6 (amended): `isType` accepts `null` when `spec.nullable` is set and
otherwise defers to the schema's `_typeCheck`: `isType(null)` equals
`nullable || _typeCheck(null)`.  For the base mixed type, whose `_typeCheck`
accepts everything, `null` is accepted even with `nullable: false`. -/
theorem isType_null_amended :
    (∀ s : MixedSchema, s.isType JValue.null = (s.spec.nullable || s._typeCheck JValue.null))
  ∧ create.isType JValue.null = true ∧ create.spec.nullable = false := by
  refine ⟨?_, rfl, rfl⟩
  intro s
  unfold MixedSchema.isType
  cases hn : s.spec.nullable <;> simp

/-- Fuel monotonicity of `resolve`: a successful resolution is stable under
more fuel, so for fixed dependency values repeated resolution of the same
schema yields the same outcome. -/
theorem resolve_mono (env : CondEnv) :
    ∀ (fuel : Nat) (s : MixedSchema) (options : ResolveOptions) (r : MixedSchema) (m : Nat),
      MixedSchema.resolve env fuel s options = some r → fuel ≤ m →
      MixedSchema.resolve env m s options = some r := by
  intro fuel
  induction fuel with
  | zero => intro s options r m h _; simp [MixedSchema.resolve] at h
  | succ n ih =>
    intro s options r m h hle
    obtain ⟨m', rfl⟩ : ∃ m', m = m' + 1 := ⟨m - 1, by omega⟩
    rw [MixedSchema.resolve] at h ⊢
    by_cases hc : s.conditions.isEmpty
    · rw [if_pos hc] at h ⊢; exact h
    · rw [if_neg hc] at h ⊢
      exact ih _ options r m' h (by omega)

/-- C7: `resolve` on a schema without pending conditions returns the
receiver unchanged; with pending conditions it clones, clears the clone's
conditions, left-folds the conditions over the clone and resolves the
result again; and resolution is a pure function of the schema and options —
the original value is untouched (the model is pure) and a resolved outcome
is stable across repeated calls (fuel monotonicity). -/
theorem resolve_conditions_spec (env : CondEnv) (fuel : Nat) (s : MixedSchema)
    (options : ResolveOptions) :
    (s.conditions.isEmpty = true →
      MixedSchema.resolve env (fuel + 1) s options = some s)
  ∧ (s.conditions.isEmpty = false →
      MixedSchema.resolve env (fuel + 1) s options =
        MixedSchema.resolve env fuel
          (s.conditions.foldl (fun schema condition => condition.resolve env schema options)
            { s.clone with conditions := ([] : List Condition) }) options)
  ∧ (∀ (r : MixedSchema) (m : Nat), MixedSchema.resolve env fuel s options = some r →
      fuel ≤ m → MixedSchema.resolve env m s options = some r) := by
  refine ⟨?_, ?_, fun r m h hle => resolve_mono env fuel s options r m h hle⟩
  · intro hc
    rw [MixedSchema.resolve, if_pos hc]
  · intro hc
    rw [MixedSchema.resolve, if_neg (by rw [hc]; exact Bool.false_ne_true)]

/-- A schema with one pending condition (the branch is the identity, via
`envId`). -/
def schemaWithCond : MixedSchema := { create with conditions := [⟨[], 0⟩] }

/-- Witness for `resolve_conditions_spec` at concrete inputs. -/
theorem resolve_conditions_spec_witness :
    MixedSchema.resolve envId 1 create {} = some create
  ∧ MixedSchema.resolve envId 2 schemaWithCond {} =
      MixedSchema.resolve envId 1
        (schemaWithCond.conditions.foldl
          (fun schema condition => condition.resolve envId schema {})
          { schemaWithCond.clone with conditions := ([] : List Condition) }) {}
  ∧ MixedSchema.resolve envId 3 schemaWithCond {} =
      some { schemaWithCond with conditions := ([] : List Condition) } := by
  refine ⟨(resolve_conditions_spec envId 0 create {}).1 rfl,
    (resolve_conditions_spec envId 1 schemaWithCond {}).2.1 rfl,
    (resolve_conditions_spec envId 2 schemaWithCond {}).2.2
      { schemaWithCond with conditions := ([] : List Condition) } 3 rfl (by omega)⟩

theorem RefSet.mem_add_self (s : RefSet) (v : JValue) : v ∈ (s.add (.lit v)).list := by
  unfold RefSet.add
  by_cases h : s.list.contains v
  · simp only [h, if_true]
    exact List.mem_of_elem_eq_true h
  · simp only [h, Bool.false_eq_true, if_false]
    exact List.mem_append_right _ (List.mem_singleton.mpr rfl)

theorem RefSet.mem_add_of_mem (s : RefSet) (v : JValue) (x : RVal) (h : v ∈ s.list) :
    v ∈ (s.add x).list := by
  cases x with
  | ref r => exact h
  | lit w =>
    unfold RefSet.add
    by_cases hc : s.list.contains w
    · simp only [hc, if_true]; exact h
    · simp only [hc, Bool.false_eq_true, if_false]
      exact List.mem_append_left _ h

theorem RefSet.not_mem_delete_self (s : RefSet) (v : JValue) :
    v ∉ (s.delete (.lit v)).list := by
  unfold RefSet.delete
  intro h
  rw [List.mem_filter] at h
  simp at h

theorem RefSet.not_mem_delete_of_not_mem (s : RefSet) (v : JValue) (x : RVal)
    (h : v ∉ s.list) : v ∉ (s.delete x).list := by
  cases x with
  | ref r => exact h
  | lit w =>
    unfold RefSet.delete
    intro hm
    rw [List.mem_filter] at hm
    exact h hm.1

theorem oneOf_fold_white_preserved (enums : List RVal) :
    ∀ (s : MixedSchema) (v : JValue), v ∈ s._whitelist.list →
      v ∈ (enums.foldl oneOfStep s)._whitelist.list := by
  induction enums with
  | nil => intro s v h; exact h
  | cons x rest ih =>
    intro s v h
    exact ih (oneOfStep s x) v (RefSet.mem_add_of_mem _ v x h)

theorem oneOf_fold_black_preserved (enums : List RVal) :
    ∀ (s : MixedSchema) (v : JValue), v ∉ s._blacklist.list →
      v ∉ (enums.foldl oneOfStep s)._blacklist.list := by
  induction enums with
  | nil => intro s v h; exact h
  | cons x rest ih =>
    intro s v h
    exact ih (oneOfStep s x) v (RefSet.not_mem_delete_of_not_mem _ v x h)

theorem oneOf_fold_white (enums : List RVal) :
    ∀ (s : MixedSchema) (v : JValue), RVal.lit v ∈ enums →
      v ∈ (enums.foldl oneOfStep s)._whitelist.list := by
  induction enums with
  | nil => intro s v h; simp at h
  | cons x rest ih =>
    intro s v h
    rcases List.mem_cons.1 h with heq | hmem
    · exact oneOf_fold_white_preserved rest (oneOfStep s x) v
        (heq ▸ RefSet.mem_add_self s._whitelist v)
    · exact ih (oneOfStep s x) v hmem

theorem oneOf_fold_black (enums : List RVal) :
    ∀ (s : MixedSchema) (v : JValue), RVal.lit v ∈ enums →
      v ∉ (enums.foldl oneOfStep s)._blacklist.list := by
  induction enums with
  | nil => intro s v h; simp at h
  | cons x rest ih =>
    intro s v h
    rcases List.mem_cons.1 h with heq | hmem
    · exact oneOf_fold_black_preserved rest (oneOfStep s x) v
        (heq ▸ RefSet.not_mem_delete_self s._blacklist v)
    · exact ih (oneOfStep s x) v hmem

theorem notOneOf_fold_black_preserved (enums : List RVal) :
    ∀ (s : MixedSchema) (v : JValue), v ∈ s._blacklist.list →
      v ∈ (enums.foldl notOneOfStep s)._blacklist.list := by
  induction enums with
  | nil => intro s v h; exact h
  | cons x rest ih =>
    intro s v h
    exact ih (notOneOfStep s x) v (RefSet.mem_add_of_mem _ v x h)

theorem notOneOf_fold_white_preserved (enums : List RVal) :
    ∀ (s : MixedSchema) (v : JValue), v ∉ s._whitelist.list →
      v ∉ (enums.foldl notOneOfStep s)._whitelist.list := by
  induction enums with
  | nil => intro s v h; exact h
  | cons x rest ih =>
    intro s v h
    exact ih (notOneOfStep s x) v (RefSet.not_mem_delete_of_not_mem _ v x h)

theorem notOneOf_fold_black (enums : List RVal) :
    ∀ (s : MixedSchema) (v : JValue), RVal.lit v ∈ enums →
      v ∈ (enums.foldl notOneOfStep s)._blacklist.list := by
  induction enums with
  | nil => intro s v h; simp at h
  | cons x rest ih =>
    intro s v h
    rcases List.mem_cons.1 h with heq | hmem
    · exact notOneOf_fold_black_preserved rest (notOneOfStep s x) v
        (heq ▸ RefSet.mem_add_self s._blacklist v)
    · exact ih (notOneOfStep s x) v hmem

theorem notOneOf_fold_white (enums : List RVal) :
    ∀ (s : MixedSchema) (v : JValue), RVal.lit v ∈ enums →
      v ∉ (enums.foldl notOneOfStep s)._whitelist.list := by
  induction enums with
  | nil => intro s v h; simp at h
  | cons x rest ih =>
    intro s v h
    rcases List.mem_cons.1 h with heq | hmem
    · exact notOneOf_fold_white_preserved rest (notOneOfStep s x) v
        (heq ▸ RefSet.not_mem_delete_self s._whitelist v)
    · exact ih (notOneOfStep s x) v hmem

/-- C8: `oneOf` adds each given value to the whitelist and removes it from
the blacklist; `notOneOf` adds each given value to the blacklist and
removes it from the whitelist — the later call wins. -/
theorem oneOf_notOneOf_membership (s : MixedSchema) (enums : List RVal) (v : JValue)
    (hv : RVal.lit v ∈ enums) :
    v ∈ (s.oneOf enums)._whitelist.list
  ∧ v ∉ (s.oneOf enums)._blacklist.list
  ∧ v ∈ (s.notOneOf enums)._blacklist.list
  ∧ v ∉ (s.notOneOf enums)._whitelist.list := by
  refine ⟨?_, ?_, ?_, ?_⟩
  · exact oneOf_fold_white enums s v hv
  · exact oneOf_fold_black enums s v hv
  · exact notOneOf_fold_black enums s v hv
  · exact notOneOf_fold_white enums s v hv

/-- The concrete schema `oneOf([1,2,3])`. -/
def s8a : MixedSchema := create.oneOf [.lit (.num 1), .lit (.num 2), .lit (.num 3)]

/-- The concrete schema `oneOf([1,2,3]).notOneOf([2])`. -/
def s8 : MixedSchema := s8a.notOneOf [.lit (.num 2)]

/-- A reference resolver for contexts without references. -/
def refResolve0 : Reference → JValue := fun _ => JValue.undefined

/-- Witness for `oneOf_notOneOf_membership`: after `oneOf([1,2,3])` then
`notOneOf([2])` the value `2` is in the blacklist and no longer in the
whitelist, so the blacklist-error test fails it and the whitelist-error
test no longer accepts it. -/
theorem oneOf_notOneOf_membership_witness :
    JValue.num 2 ∈ (s8a.notOneOf [.lit (.num 2)])._blacklist.list
  ∧ JValue.num 2 ∉ (s8a.notOneOf [.lit (.num 2)])._whitelist.list
  ∧ s8._blacklist.has (.num 2) refResolve0 = true
  ∧ s8._whitelist.has (.num 2) refResolve0 = false := by
  have h := oneOf_notOneOf_membership s8a [.lit (.num 2)] (.num 2) (by decide)
  exact ⟨h.2.2.1, h.2.2.2, by decide, by decide⟩

/-- Every test executed by the runner comes from its input list. -/
theorem runTestsSync_executed_sub (endEarly : Bool) (runT : TestId → Bool) :
    ∀ (l : List TestId) (x : TestId), x ∈ (runTestsSync endEarly runT l).1 → x ∈ l := by
  intro l
  induction l with
  | nil => intro x hx; simp [runTestsSync] at hx
  | cons t ts ih =>
    intro x hx
    unfold runTestsSync at hx
    by_cases hr : runT t = true
    · simp only [hr, if_true] at hx
      rcases List.mem_cons.1 hx with heq | hx2
      · subst heq; exact List.mem_cons_self _ _
      · exact List.mem_cons_of_mem t (ih x hx2)
    · rw [Bool.not_eq_true] at hr
      simp only [hr, Bool.false_eq_true, if_false] at hx
      by_cases hee : endEarly = true
      · rw [if_pos hee] at hx
        have heq := List.mem_singleton.1 hx
        subst heq; exact List.mem_cons_self _ _
      · rw [if_neg hee] at hx
        rcases List.mem_cons.1 hx with heq | hx2
        · subst heq; exact List.mem_cons_self _ _
        · exact List.mem_cons_of_mem t (ih x hx2)

/-- With abort-early the runner reports at most one failure. -/
theorem runTestsSync_endEarly_len (runT : TestId → Bool) :
    ∀ l : List TestId, (runTestsSync true runT l).2.length ≤ 1 := by
  intro l
  induction l with
  | nil => simp [runTestsSync]
  | cons t ts ih =>
    unfold runTestsSync
    by_cases hr : runT t = true
    · simp only [hr, if_true]
      exact ih
    · rw [Bool.not_eq_true] at hr
      simp [hr]

/-- The synthesized initial batch contains no user test. -/
theorem initialTests_not_user (s : MixedSchema) :
    ∀ t ∈ s.initialTests, t.isUser = false := by
  intro t ht
  unfold MixedSchema.initialTests at ht
  rcases List.mem_append.1 ht with h | h
  · rcases List.mem_append.1 h with h1 | h1
    · split at h1 <;> simp_all [TestId.isUser]
    · split at h1 <;> simp_all [TestId.isUser]
  · split at h <;> simp_all [TestId.isUser]

/-- C9: `_validate` runs the synthesized type-error, whitelist-error and
blacklist-error tests that are present — in that order — as one initial
batch before the user-defined queue, under the same abort-early policy; and
whenever the initial batch fails with abort-early set, validation completes
with that single error and no user-defined test is executed (the user queue
is skipped whenever the batch fails at all). -/
theorem validate_initial_batch (s : MixedSchema) (env : TestEnv) (v : JValue)
    (o : InternalOptions) :
    s.initialTests =
      (if s._typeError then [TestId.typeErr] else []) ++
        (if s._whitelistError then [TestId.whiteErr] else []) ++
          (if s._blacklistError then [TestId.blackErr] else [])
  ∧ (s._validate env v o).1 =
      (s.initialRun env v o).1 ++
        (if (s.initialRun env v o).2.isEmpty then (s.userRun env v o).1 else [])
  ∧ (∀ t ∈ (s.initialRun env v o).1, t.isUser = false)
  ∧ ((s.initialRun env v o).2 ≠ [] →
      (s._validate env v o).2 = Except.error (s.initialRun env v o).2
    ∧ (∀ t ∈ (s._validate env v o).1, t.isUser = false)
    ∧ (s.effAbortEarly o = true → (s.initialRun env v o).2.length = 1)) := by
  have hsub : ∀ t ∈ (s.initialRun env v o).1, t.isUser = false := by
    intro t ht
    exact initialTests_not_user s t
      (runTestsSync_executed_sub (s.effAbortEarly o) _ s.initialTests t ht)
  have hempty : ((s.initialRun env v o).2.isEmpty = true) ∨
      ((s.initialRun env v o).2.isEmpty = false) := by
    cases (s.initialRun env v o).2.isEmpty <;> simp
  refine ⟨rfl, ?_, hsub, ?_⟩
  · rcases hempty with he | he <;> simp [MixedSchema._validate, he]
  · intro hne
    have he : (s.initialRun env v o).2.isEmpty = false := by
      cases hc : (s.initialRun env v o).2 with
      | nil => exact absurd hc hne
      | cons a l => rfl
    refine ⟨?_, ?_, ?_⟩
    · simp [MixedSchema._validate, he]
    · intro t ht
      simp only [MixedSchema._validate, he, Bool.false_eq_true, if_false] at ht
      exact hsub t ht
    · intro hae
      have hlen := runTestsSync_endEarly_len
        (runOneTest s env (s.preValue v o)) s.initialTests
      have : (s.initialRun env v o).2.length ≤ 1 := by
        unfold MixedSchema.initialRun
        rw [hae]
        exact hlen
      have hpos : (s.initialRun env v o).2.length ≠ 0 := by
        intro h0
        exact hne (List.eq_nil_of_length_eq_zero h0)
      omega

/-- The concrete schema of the validation witness: `oneOf([1])` plus one
user test. -/
def s9 : MixedSchema :=
  testOk (create.oneOf [.lit (.num 1)]) { name := some "t", exclusive := false, test := 5 }

/-- Witness for `validate_initial_batch`: validating `2` against `s9` with
the default abort-early policy fails the synthesized whitelist test, returns
exactly that error, and runs no user test. -/
theorem validate_initial_batch_witness :
    (s9._validate {} (.num 2) {}).2 = Except.error [TestId.whiteErr]
  ∧ (∀ t ∈ (s9._validate {} (.num 2) {}).1, t.isUser = false)
  ∧ (s9.initialRun {} (.num 2) {}).2.length = 1 := by
  have h := (validate_initial_batch s9 {} (.num 2) {}).2.2.2 (by decide)
  refine ⟨h.1.trans (by decide), h.2.1, h.2.2 (by decide)⟩

/-- C10: when the raw value passed to `cast` is `undefined`, the `isType`
assertion is skipped entirely and `cast` returns the `_cast` result (the
configured default) unchallenged, whatever `isType` says about it. -/
theorem cast_undefined_skips_assert (env : CondEnv) (fuel : Nat) (s : MixedSchema)
    (options : CastOptions) (rs : MixedSchema)
    (_hassert : options.assert ≠ some false)
    (h : MixedSchema.resolve env fuel s
      { value := JValue.undefined, context := options.context } = some rs) :
    MixedSchema.cast env fuel s JValue.undefined options =
      some (Except.ok (rs._cast JValue.undefined options)) := by
  unfold MixedSchema.cast
  rw [h]
  show (if JValue.undefined ≠ JValue.undefined ∧ options.assert ≠ some false ∧
          rs.isType (rs._cast JValue.undefined options) ≠ true
        then some (Except.error castTypeError)
        else some (Except.ok (rs._cast JValue.undefined options))) = _
  rw [if_neg (fun hcon => hcon.1 rfl)]

/-- Witness for `cast_undefined_skips_assert`: the `null` default of
`nullRejecting` fails its own type-check yet is returned unchallenged. -/
theorem cast_undefined_skips_assert_witness :
    MixedSchema.cast envId 1 nullRejecting JValue.undefined {} = some (Except.ok JValue.null)
  ∧ nullRejecting.isType JValue.null = false := by
  have h := cast_undefined_skips_assert envId 1 nullRejecting {} nullRejecting
    (by decide) rfl
  exact ⟨h.trans (by decide), by decide⟩

end Yup
